import Mathlib

/-!
# Verification of the ContextStitch traversal-and-filtering engine

Shallow embedding of `src/contextstitch/stitcher.py`.  Strings are modelled
as explicit lists of characters (`CStr`), file contents as lists of byte
values (`List Nat`), and the filesystem as an inductive tree of entries.
Python floats that appear in the source (`parse_size`, the binary-detector
threshold) are modelled with exact arithmetic; the places where this matters
are noted at the corresponding definitions.  Recursive directory walks are
written with an explicit structural fuel argument so that every definition
is executable and kernel-reducible; officially the fuel is instantiated at
`sizeOf` of the tree, which always suffices (each recursive step descends
into a strictly `sizeOf`-smaller list), and fuel-irrelevance lemmas are
proved below.
-/

/-- A Python string, modelled as an explicit list of characters. -/
abbrev CStr := List Char

namespace ContextStitch

/-- ASCII whitespace recognised by `str.strip()` (the size strings the
engine handles are ASCII). -/
def isSpaceChar (c : Char) : Bool :=
  c = ' ' || c = '\t' || c = '\n' || c = '\r' || c = '\x0b' || c = '\x0c'

/-- `str.strip()`: drop whitespace from both ends. -/
def pyStrip (s : CStr) : CStr :=
  ((s.dropWhile isSpaceChar).reverse.dropWhile isSpaceChar).reverse

/-- `str.lower()`, restricted to ASCII (all names and patterns exercised by
the specification are ASCII). -/
def lowerStr (s : CStr) : CStr := s.map Char.toLower

/-! ## fnmatch-style glob matching (the `_MiniSpec` fallback matcher)

`Stitcher._build_pathspec` delegates to the external `pathspec` library when
it is installed and otherwise uses the in-repository `_MiniSpec` fallback
(`fnmatch.fnmatch(rp, p) or rp.startswith(p.rstrip("*"))`).  The model embeds
the fallback, which is the matcher defined by this repository.  On every
pattern exercised by the claims below the two matchers agree. -/

/-- Scan a character-class body for the closing `]`; returns the class body
and the remainder of the pattern. -/
def scanClose : CStr → Option (CStr × CStr)
  | [] => none
  | ']' :: t => some ([], t)
  | c :: t =>
    match scanClose t with
    | some (body, rest) => some (c :: body, rest)
    | none => none

/-- Split a glob character class (the part after `[`): optional `!`
negation, a leading `]` is a literal member, unterminated classes fail
(the `[` is then treated as a literal, as `fnmatch.translate` does). -/
def splitClass (s : CStr) : Option (Bool × CStr × CStr) :=
  let p := match s with
    | '!' :: t => (true, t)
    | _ => (false, s)
  match p.2 with
  | ']' :: t =>
    match scanClose t with
    | some (body, rest) => some (p.1, ']' :: body, rest)
    | none => none
  | s1 =>
    match scanClose s1 with
    | some (body, rest) => some (p.1, body, rest)
    | none => none

/-- Membership of a character in a class body (`a-b` ranges, other
characters literal; a `-` without both endpoints is literal). -/
def classHas : CStr → Char → Bool
  | a :: '-' :: b :: rest, c => (a ≤ c && c ≤ b) || classHas rest c
  | a :: rest, c => a = c || classHas rest c
  | [], _ => false

/-- Fueled `fnmatch.fnmatchcase` matcher: `*` matches any sequence
(including `/`, since `fnmatch` is not path-aware), `?` any single
character, `[...]` a character class.  On POSIX `fnmatch.fnmatch` is
`fnmatchcase` (normcase is the identity).  Each step shortens
`pattern + string`, so fuel `p.length + s.length + 1` always suffices. -/
def globMatchF : Nat → CStr → CStr → Bool
  | 0, _, _ => false
  | _ + 1, [], s => s.isEmpty
  | fuel + 1, '*' :: p, s =>
    globMatchF fuel p s ||
      (match s with
       | [] => false
       | _ :: srest => globMatchF fuel ('*' :: p) srest)
  | fuel + 1, '?' :: p, s =>
    (match s with
     | [] => false
     | _ :: srest => globMatchF fuel p srest)
  | fuel + 1, '[' :: p, s =>
    (match splitClass p with
     | some (neg, body, prest) =>
       (match s with
        | [] => false
        | c :: srest => (neg != classHas body c) && globMatchF fuel prest srest)
     | none =>
       (match s with
        | [] => false
        | c :: srest => c = '[' && globMatchF fuel p srest))
  | fuel + 1, c :: p, s =>
    (match s with
     | [] => false
     | d :: srest => c = d && globMatchF fuel p srest)

/-- `fnmatch.fnmatch` with adequate fuel. -/
def globMatch (p s : CStr) : Bool := globMatchF (p.length + s.length + 1) p s

/-- `p.rstrip("*")`. -/
def rstripStars (p : CStr) : CStr := (p.reverse.dropWhile (· = '*')).reverse

/-- One pattern of `_MiniSpec.match_file`:
`fnmatch.fnmatch(rp, p) or rp.startswith(p.rstrip("*"))`. -/
def miniMatchOne (rp p : CStr) : Bool :=
  globMatch p rp || List.isPrefixOf (rstripStars p) rp

/-- `_MiniSpec.match_file`: true when any pattern matches the (already
`/`-separated) relative path. -/
def miniSpecMatch (patterns : List CStr) (rp : CStr) : Bool :=
  patterns.any (miniMatchOne rp)

/-! ## Ignore pattern assembly (`DEFAULT_GLOBAL_IGNORES`, `PRESETS`,
`Stitcher._build_pathspec`) -/

/-- `DEFAULT_GLOBAL_IGNORES` from the source, verbatim and in order. -/
def DEFAULT_GLOBAL_IGNORES : List CStr :=
  [".git/".data, ".svn/".data, ".hg/".data, ".DS_Store".data,
   "Thumbs.db".data, ".idea/".data, ".vscode/".data,
   "*.exe".data, "*.dll".data, "*.bin".data]

/-- The `python` preset pattern bundle. -/
def pythonPreset : List CStr :=
  ["__pycache__/".data, "*.py[cod]".data, ".mypy_cache/".data,
   ".pytest_cache/".data, ".tox/".data, ".venv/".data, "venv/".data,
   "env/".data, "build/".data, "dist/".data, "*.egg-info/".data]

/-- The `node` preset pattern bundle. -/
def nodePreset : List CStr :=
  ["node_modules/".data, "dist/".data, "build/".data, ".next/".data,
   ".nuxt/".data, ".cache/".data, "coverage/".data, "*.log".data]

/-- `PRESETS` lookup table. -/
def PRESETS : List (CStr × List CStr) :=
  [("python".data, pythonPreset), ("node".data, nodePreset)]

/-- `PRESETS.get(name)`. -/
def presetLookup (nm : CStr) : Option (List CStr) :=
  (PRESETS.find? (fun kv => kv.1 == nm)).map (fun kv => kv.2)

/-- The engine-relevant fields of `StitchOptions`. `output`, `to_stdout` and
`quiet` belong to the excluded CLI glue; `gitignore`/`encoding` are modelled
at the call sites that consume them (the gitignore file contents and the
decode function are passed explicitly); `relative_paths` is never read by
the engine. -/
structure Opts where
  fmt : CStr
  useGitignore : Bool
  preset : Option CStr
  extraIgnores : List CStr
  includeHidden : Bool
  maxFileSize : Nat
  followSymlinks : Bool
deriving Repr

/-- The `StitchOptions` defaults (fmt `md`, gitignore honoured, no preset,
no extra ignores, hidden excluded, 1 MiB size limit, symlinks not
followed). -/
def defaultOpts : Opts :=
  { fmt := "md".data
    useGitignore := true
    preset := none
    extraIgnores := []
    includeHidden := false
    maxFileSize := 1048576
    followSymlinks := false }

/-- `line.strip()` truthiness test used by the gitignore reader. -/
def lineNonBlank (l : CStr) : Bool := !(pyStrip l).isEmpty

/-- `line.rstrip("\n")`. -/
def rstripNl (l : CStr) : CStr := (l.reverse.dropWhile (· = '\n')).reverse

/-- The preset portion of `_build_pathspec`: nothing when no (or an empty,
hence falsy) preset name is configured, the bundle from `PRESETS` after
lowercasing the name, and the `Unknown preset` error otherwise. -/
def presetPatterns (o : Opts) : Except CStr (List CStr) :=
  match o.preset with
  | none => Except.ok []
  | some p =>
    if p.isEmpty then Except.ok []
    else
      match presetLookup (lowerStr p) with
      | some pats => Except.ok pats
      | none => Except.error ("Unknown preset: ".data ++ p)

/-- `Stitcher._build_pathspec` pattern assembly: built-in global ignores,
then the preset bundle (unknown preset names raise), then the lines of the
gitignore file when gitignore honouring is enabled and a file was read
(`gitignoreFile = some lines`; `none` covers a missing file, a disabled
lookup and a swallowed read error alike), then the user-supplied extra
patterns.  Returns the ordered pattern list handed to the matcher. -/
def buildPatterns (o : Opts) (gitignoreFile : Option (List CStr)) :
    Except CStr (List CStr) :=
  match presetPatterns o with
  | Except.error e => Except.error e
  | Except.ok presetPats =>
    let giPats : List CStr :=
      if o.useGitignore then
        match gitignoreFile with
        | some ls => (ls.filter lineNonBlank).map rstripNl
        | none => []
      else []
    Except.ok (DEFAULT_GLOBAL_IGNORES ++ presetPats ++ giPats ++ o.extraIgnores)

/-! ## Filesystem snapshot model -/

/-- A filesystem entry as observed during one (race-free) run.  `file`
carries the `stat` size and the bytes an `rb` read would deliver (`none`
when opening/reading fails, e.g. permission denied); `dir` carries whether
a directory listing succeeds (`listable`) and its children in the
enumeration order of the platform; `other` is a non-regular non-directory
entry (FIFO, device, broken symlink).  `symlink` is `Path.is_symlink`; for
symlinks, kind/size/content describe the resolved target, matching
`Path.is_file`/`Path.is_dir`/`stat` which follow links. -/
inductive FSEntry : Type where
  | file (nm : CStr) (size : Nat) (content : Option (List Nat)) (symlink : Bool) : FSEntry
  | dir (nm : CStr) (listable : Bool) (children : List FSEntry) (symlink : Bool) : FSEntry
  | other (nm : CStr) (symlink : Bool) : FSEntry

mutual
/-- Structural size of an entry, used as traversal fuel. -/
def entrySize : FSEntry → Nat
  | .file _ _ _ _ => 1
  | .other _ _ => 1
  | .dir _ _ cs _ => 1 + entryListSize cs
/-- Structural size of a list of entries, used as traversal fuel. -/
def entryListSize : List FSEntry → Nat
  | [] => 1
  | e :: rest => 1 + entrySize e + entryListSize rest
end

/-- Entry name. -/
def FSEntry.nameOf : FSEntry → CStr
  | .file nm _ _ _ => nm
  | .dir nm _ _ _ => nm
  | .other nm _ => nm

/-- `Path.is_dir()` (follows symlinks: a symlink to a directory is a
`dir` entry here). -/
def FSEntry.isDirE : FSEntry → Bool
  | .dir _ _ _ _ => true
  | _ => false

/-- `Path.is_file()` (true for regular files, including symlinks resolving
to regular files; false for directories and FIFOs/devices). -/
def FSEntry.isFileE : FSEntry → Bool
  | .file _ _ _ _ => true
  | _ => false

/-- `Path.is_symlink()`. -/
def FSEntry.symlinkOf : FSEntry → Bool
  | .file _ _ _ s => s
  | .dir _ _ _ s => s
  | .other _ s => s

/-- Whether a directory listing succeeds (`os.scandir`/`iterdir`). -/
def FSEntry.listableOf : FSEntry → Bool
  | .dir _ l _ _ => l
  | _ => false

/-- Children of a directory entry. -/
def FSEntry.childrenOf : FSEntry → List FSEntry
  | .dir _ _ cs _ => cs
  | _ => []

/-- `stat().st_size` for regular files. -/
def FSEntry.sizeOfFile : FSEntry → Nat
  | .file _ sz _ _ => sz
  | _ => 0

/-! ## Visibility filter (`Stitcher._should_skip`) -/

/-- Split on a separator character (`"a/b"` → `["a", "b"]`). -/
def splitOnChar (sep : Char) : CStr → List CStr
  | [] => [[]]
  | c :: rest =>
    match splitOnChar sep rest with
    | [] => [[c]]
    | h :: t => if c = sep then [] :: h :: t else (c :: h) :: t

/-- `Path(rel).parts`: the non-empty `/`-separated segments. -/
def relParts (rel : CStr) : List CStr :=
  (splitOnChar '/' rel).filter (fun p => !p.isEmpty)

/-- The hidden test of `_should_skip`:
`any(part.startswith(".") for part in Path(rel).parts if part not in (".", ".."))`. -/
def hiddenRelB (rel : CStr) : Bool :=
  (relParts rel).any fun p =>
    !(p == ".".data) && !(p == "..".data) && (p.head? == some '.')

/-- `Stitcher._should_skip(path, rel)`: hidden segments (unless
`include_hidden`), then the ignore matcher, then the regular-file size
limit, then the symlink policy; keep otherwise.  In a race-free snapshot
the `except` branches (stat vanishing mid-walk) are unreachable. -/
def shouldSkip (o : Opts) (ign : CStr → Bool) (e : FSEntry) (rel : CStr) : Bool :=
  if !o.includeHidden && hiddenRelB rel then true
  else if ign rel then true
  else if e.isFileE && decide (e.sizeOfFile > o.maxFileSize) then true
  else if e.symlinkOf && !o.followSymlinks then true
  else false

/-! ## Content collection (`Stitcher._iter_files`) -/

/-- `os.path.join(dir_rel, name)` with `/` separators (`dir_rel` empty at
the root). -/
def joinRel (dirRel nm : CStr) : CStr :=
  if dirRel.isEmpty then nm else dirRel ++ '/' :: nm

/-- The files of one directory that survive `_should_skip`, with their
relative paths, in enumeration order (`os.walk` keeps the `scandir`
order). -/
def keptFilesOf (o : Opts) (ign : CStr → Bool) (dirRel : CStr)
    (children : List FSEntry) : List (FSEntry × CStr) :=
  (children.filter fun e => !e.isDirE && !shouldSkip o ign e (joinRel dirRel e.nameOf)).map
    fun e => (e, joinRel dirRel e.nameOf)

/-- The subdirectories of one directory that survive `_should_skip`
(tested, as in the source, with a trailing `/` on the relative path). -/
def keptDirsOf (o : Opts) (ign : CStr → Bool) (dirRel : CStr)
    (children : List FSEntry) : List FSEntry :=
  children.filter fun e =>
    e.isDirE && !shouldSkip o ign e (joinRel dirRel e.nameOf ++ ['/'])

/-- Fueled `os.walk`-based traversal of `_iter_files`: top-down, pruning
skipped directories in place (never descending into them), yielding each
kept file with its `/`-separated relative path; an unlistable directory
contributes nothing (`os.walk` ignores the scandir error).  One unit of
fuel is spent per directory level, so any fuel `≥ entryListSize` of the
children list gives the full traversal (`walkF_fuel_irrel` below). -/
def walkF (o : Opts) (ign : CStr → Bool) : Nat → CStr → List FSEntry → List (FSEntry × CStr)
  | 0, _, _ => []
  | fuel + 1, dirRel, children =>
    keptFilesOf o ign dirRel children ++
      (keptDirsOf o ign dirRel children).flatMap fun d =>
        if d.listableOf then walkF o ign fuel (joinRel dirRel d.nameOf) d.childrenOf
        else []

/-- `list(Stitcher._iter_files())` for a root whose listing yields
`rootChildren`. -/
def iterFiles (o : Opts) (ign : CStr → Bool) (rootChildren : List FSEntry) :
    List (FSEntry × CStr) :=
  walkF o ign (entryListSize rootChildren) [] rootChildren

/-! ## Tree rendering (`Stitcher._render_tree`) -/

/-- Lexicographic `≤` on character lists by code point (Python string
comparison). -/
def listLe : CStr → CStr → Bool
  | [], _ => true
  | _ :: _, [] => false
  | a :: as, b :: bs =>
    if a.toNat < b.toNat then true
    else if a.toNat = b.toNat then listLe as bs
    else false

/-- The sort key comparison of `_render_tree`:
`key=lambda x: (x.is_file(), x.name.lower())`, compared as Python tuples
(`False < True`, names lexicographically).  `treeLe a b` means the key of
`a` is `≤` the key of `b`. -/
def treeLe (a b : FSEntry) : Bool :=
  (!a.isFileE && b.isFileE) ||
    ((a.isFileE == b.isFileE) && listLe (lowerStr a.nameOf) (lowerStr b.nameOf))

/-- `treeLe` as a decidable relation for `List.insertionSort`. -/
def treeSortRel (a b : FSEntry) : Prop := treeLe a b = true

instance : DecidableRel treeSortRel := fun a b => instDecidableEqBool (treeLe a b) true

/-- `sorted(path.iterdir(), key=...)`: Python `sorted` is stable, and a
stable sort by a total preorder is uniquely determined, so the stable
insertion sort below produces exactly the list `sorted` produces. -/
def sortEntries (cs : List FSEntry) : List FSEntry :=
  List.insertionSort treeSortRel cs

/-- The `visible` list of `add_dir`: children sorted, then filtered through
`_should_skip` (directories tested with a trailing `/`). -/
def visList (o : Opts) (ign : CStr → Bool) (rel : CStr) (cs : List FSEntry) :
    List FSEntry :=
  (sortEntries cs).filter fun e =>
    !shouldSkip o ign e (joinRel rel e.nameOf ++ (if e.isDirE then ['/'] else []))

/-- Fueled rendering loop of `add_dir` over an already-computed `visible`
list.  Returns the rendered lines and, alongside, the list of entries that
received a leaf (non-directory) line together with their relative paths —
a leaf pair is recorded exactly when the corresponding leaf line is
emitted, so the second component is by construction the set of files the
tree renders as leaves.  An unlistable directory renders its own line but
nothing inside (`iterdir` raises and `add_dir` returns).  One unit of fuel
is spent per sibling step and per descent, so fuel `≥ entryListSize` of
the current list always suffices (`renderVisF_fuel_irrel` below). -/
def renderVisF (o : Opts) (ign : CStr → Bool) :
    Nat → CStr → CStr → List FSEntry → List CStr × List (FSEntry × CStr)
  | 0, _, _, _ => ([], [])
  | _ + 1, _, _, [] => ([], [])
  | fuel + 1, rel, pfx, e :: rest =>
    let isLast := rest.isEmpty
    let branch := if isLast then "└── ".data else "├── ".data
    let extPfx := if isLast then "    ".data else "│   ".data
    let r := joinRel rel e.nameOf
    let tail := renderVisF o ign fuel rel pfx rest
    if e.isDirE then
      let sub :=
        if e.listableOf then
          renderVisF o ign fuel r (pfx ++ extPfx) (visList o ign r e.childrenOf)
        else ([], [])
      ((pfx ++ branch ++ e.nameOf ++ ['/']) :: (sub.1 ++ tail.1), sub.2 ++ tail.2)
    else
      ((pfx ++ branch ++ e.nameOf) :: tail.1, (e, r) :: tail.2)

/-- `Stitcher._render_tree`: the root label line followed by the recursive
rendering, starting from `add_dir(self.root, "", "")`.  First component:
the rendered lines; second component: the leaf (file) entries of the
rendering with their relative paths. -/
def renderTreeParts (o : Opts) (ign : CStr → Bool) (rootLabel : CStr)
    (cs : List FSEntry) : List CStr × List (FSEntry × CStr) :=
  let p := renderVisF o ign (entryListSize cs) [] [] (visList o ign [] cs)
  ((rootLabel ++ ['/']) :: p.1, p.2)

/-! ## Binary detection (`is_probably_binary`) -/

/-- The accepted text byte set of `is_probably_binary`:
`{7,8,9,10,12,13,27} | set(range(0x20, 0x100))`. -/
def textCharB (b : Nat) : Bool :=
  b == 7 || b == 8 || b == 9 || b == 10 || b == 12 || b == 13 || b == 27 ||
    (32 ≤ b && b ≤ 255)

/-- `len(chunk.translate(None, text_chars))`: the number of sampled bytes
outside the text set. -/
def nontextCount (chunk : List Nat) : Nat :=
  (chunk.filter fun b => !textCharB b).length

/-- `is_probably_binary(path, read_bytes)`: `content` is what an `rb` open
and read of the file delivers (`none` when it raises, which the source
answers with `True` — fail safe).  The float comparison
`len(nontext) / max(1, len(chunk)) > 0.30` is modelled by the equivalent
exact cross-multiplication (the denominator is positive; no fraction with
denominator `≤ 2048` lies strictly between the IEEE double nearest `0.30`
and the exact `3/10`, so the float comparison and the exact one classify
every possible sample identically).  The rational form is proved in the
claim-4 theorem below. -/
def isProbablyBinary (readBytes : Nat) (content : Option (List Nat)) : Bool :=
  match content with
  | none => true
  | some bs =>
    let chunk := bs.take readBytes
    if chunk.contains 0 then true
    else decide (10 * nontextCount chunk > 3 * max 1 chunk.length)

/-! ## Reading file text (`Stitcher._read_text`) -/

/-- `Stitcher._read_text`: `None` for non-regular entries (`S_ISREG`
fails), for unreadable files (the binary probe cannot open them and
answers binary) and for binary files; otherwise the bytes decoded under
the configured encoding.  `dec` models `bytes.decode(encoding,
errors="replace")`, which is total — invalid sequences are substituted,
never raised. -/
def readTextM (dec : List Nat → CStr) (e : FSEntry) : Option CStr :=
  match e with
  | .file _ _ (some bs) _ =>
    if isProbablyBinary 2048 (some bs) then none else some (dec bs)
  | _ => none

/-! ## Document assembly (`Stitcher.build`) -/

/-- The placeholder written for binary/unreadable files (with the newline
the source writes after it). -/
def placeholder : CStr := "[Skipped: binary or unreadable]\n".data

/-- `content.endswith("\n")`. -/
def endsNl (c : CStr) : Bool := c.getLast? == some '\n'

/-- The body written between the plain-text delimiters: the placeholder,
or the content followed by a newline when it does not end with one. -/
def txtBody : Option CStr → CStr
  | none => placeholder
  | some c => c ++ (if endsNl c then [] else ['\n'])

/-- One plain-text file section:
`--- BEGIN FILE: rel ---` line, body, `--- END FILE: rel ---` line and a
blank line. -/
def txtSection (dec : List Nat → CStr) (pr : FSEntry × CStr) : CStr :=
  "--- BEGIN FILE: ".data ++ pr.2 ++ " ---\n".data ++
    txtBody (readTextM dec pr.1) ++
    "--- END FILE: ".data ++ pr.2 ++ " ---\n\n".data

/-- The body written inside a Markdown fence: the placeholder (the
trailing-newline check also fires for `None`, adding a second newline), or
the content followed by a newline when it is empty or does not end with
one. -/
def mdBody : Option CStr → CStr
  | none => placeholder ++ ['\n']
  | some c => c ++ (if c.isEmpty || !endsNl c then ['\n'] else [])

/-- `path.suffix.lower().lstrip(".")`: the part after the last dot of the
name, when that dot is neither the first nor the last character,
lowercased. -/
def extOf (nm : CStr) : CStr :=
  let r := nm.reverse
  let afterRev := r.takeWhile fun c => c ≠ '.'
  if afterRev.length = r.length then []
  else if afterRev.isEmpty then []
  else if afterRev.length + 1 < nm.length then lowerStr afterRev.reverse else []

/-- The extension-to-language table of `guess_lang_from_suffix`. -/
def LANG_MAP : List (CStr × CStr) :=
  [("py".data, "python".data), ("js".data, "javascript".data),
   ("ts".data, "typescript".data), ("tsx".data, "tsx".data),
   ("jsx".data, "jsx".data), ("json".data, "json".data),
   ("yml".data, "yaml".data), ("yaml".data, "yaml".data),
   ("toml".data, "toml".data), ("ini".data, "ini".data),
   ("cfg".data, "ini".data), ("md".data, "markdown".data),
   ("txt".data, [] ), ("sh".data, "bash".data),
   ("zsh".data, "bash".data), ("ps1".data, "powershell".data),
   ("rb".data, "ruby".data), ("go".data, "go".data),
   ("rs".data, "rust".data), ("java".data, "java".data),
   ("kt".data, "kotlin".data), ("c".data, "c".data),
   ("h".data, "c".data), ("cpp".data, "cpp".data),
   ("hpp".data, "cpp".data), ("cs".data, "csharp".data),
   ("php".data, "php".data), ("sql".data, "sql".data),
   ("html".data, "html".data), ("css".data, "css".data),
   ("vue".data, "vue".data), ("sv".data, "verilog".data)]

/-- `guess_lang_from_suffix` (`mapping.get(ext, "")`). -/
def guessLang (nm : CStr) : CStr :=
  ((LANG_MAP.find? fun kv => kv.1 == extOf nm).map fun kv => kv.2).getD []

/-- One Markdown file section: heading with the backtick-quoted relative
path, a fenced block tagged with the guessed language (untagged when the
guess is empty — the two `write` branches of the source produce exactly
these bytes), the body, and the closing fence plus a blank line. -/
def mdSection (dec : List Nat → CStr) (pr : FSEntry × CStr) : CStr :=
  "### `".data ++ pr.2 ++ "`\n\n".data ++
    "```".data ++ guessLang pr.1.nameOf ++ ['\n'] ++
    mdBody (readTextM dec pr.1) ++
    "```\n\n".data

/-- Concatenation of the written chunks (`buf.write` sequence). -/
def catAll (l : List CStr) : CStr := l.flatMap id

/-- Decimal rendering of a file count (fueled division loop). -/
def natToDecimalF : Nat → Nat → CStr
  | 0, _ => []
  | fuel + 1, n =>
    if n < 10 then [Char.ofNat (48 + n)]
    else natToDecimalF fuel (n / 10) ++ [Char.ofNat (48 + n % 10)]

/-- Decimal rendering of a file count. -/
def natToDecimal (n : Nat) : CStr := natToDecimalF (n + 1) n

/-- `Stitcher.build()`.  `rootLabel` is `self.root.name`, `rootStr` the
string form of the resolved root, `now` the formatted timestamp, `dec`
the decoding of `_read_text`, `cs` the root listing.  Produces the
complete document: header, folder tree, then one section per collected
file, in the plain-text format when `fmt == "txt"` and Markdown
otherwise. -/
def buildDoc (o : Opts) (ign : CStr → Bool) (dec : List Nat → CStr)
    (rootLabel rootStr now : CStr) (cs : List FSEntry) : CStr :=
  let files := iterFiles o ign cs
  let treeLines := (renderTreeParts o ign rootLabel cs).1
  if o.fmt == "txt".data then
    "ContextStitch output\n".data ++
      "Root: ".data ++ rootStr ++ ['\n'] ++
      "Generated: ".data ++ now ++ ['\n'] ++
      List.replicate 80 '=' ++ "\n\n".data ++
      "FOLDER TREE\n".data ++ List.replicate 80 '-' ++ ['\n'] ++
      catAll (treeLines.map fun l => l ++ ['\n']) ++
      ['\n'] ++ "FILES\n".data ++ List.replicate 80 '-' ++ ['\n'] ++
      catAll (files.map (txtSection dec))
  else
    "# ContextStitch Output\n\n".data ++
      "- **Root**: `".data ++ rootStr ++ "`\n".data ++
      "- **Generated**: ".data ++ now ++ ['\n'] ++
      "- **Files included**: ".data ++ natToDecimal files.length ++ "\n\n".data ++
      "## Folder Tree\n\n".data ++
      "```text\n".data ++
      catAll (treeLines.map fun l => l ++ ['\n']) ++
      "```\n\n".data ++
      "## Files\n\n".data ++
      catAll (files.map (mdSection dec))

/-! ## Size parsing (`parse_size`) -/

/-- ASCII digit test. -/
def isDigitC (c : Char) : Bool := '0' ≤ c && c ≤ '9'

/-- Value of an ASCII digit. -/
def digitVal (c : Char) : Nat := c.toNat - 48

/-- Maximal digit run in the Python numeric grammar: digits with single
underscores allowed between digits only.  Returns the accumulated value,
the number of digits consumed, and the unconsumed remainder;
an underscore that is not between two digits stops the run (the caller
then sees a non-empty remainder and fails, as `int`/`float` do). -/
def digRunAux (v cnt : Nat) : CStr → Nat × Nat × CStr
  | [] => (v, cnt, [])
  | c :: rest =>
    if isDigitC c then digRunAux (10 * v + digitVal c) (cnt + 1) rest
    else if c = '_' && cnt ≠ 0 then
      match rest with
      | d :: rest2 =>
        if isDigitC d then digRunAux (10 * v + digitVal d) (cnt + 1) rest2
        else (v, cnt, c :: rest)
      | [] => (v, cnt, c :: rest)
    else (v, cnt, c :: rest)

/-- Maximal digit run starting with value 0. -/
def digRun (s : CStr) : Nat × Nat × CStr := digRunAux 0 0 s

/-- Optional sign: returns (negative?, remainder). -/
def parseSign : CStr → Bool × CStr
  | '+' :: t => (false, t)
  | '-' :: t => (true, t)
  | s => (false, s)

/-- Python `int(s)` on a string with no surrounding whitespace (the caller
has already stripped): optional sign followed by a digit run consuming the
whole string.  (Non-ASCII digit characters are outside the model.) -/
def pyInt (s : CStr) : Option Int :=
  let p := parseSign s
  let g := digRun p.2
  if g.2.1 = 0 || !g.2.2.isEmpty then none
  else some (if p.1 then -(g.1 : Int) else (g.1 : Int))

/-- An exactly-represented decimal literal value `mant * 10 ^ exp10`, the
intermediate result of parsing a float literal, before rounding to
binary64. -/
structure DecNum where
  mant : Int
  exp10 : Int
deriving Repr, DecidableEq

/-- The syntactic part of Python `float(s)` on a finite decimal literal:
optional surrounding whitespace (which `float` strips), an optional sign,
an integer part and/or a fractional part (at least one digit between
them), and an optional exponent.  Returns the exact decimal value the
literal denotes; `roundDec10` below then rounds it to binary64.
`inf`/`nan` spellings are not produced (on those inputs the source raises
inside `int(...)`, observably the same as a parse failure here). -/
def floatLit (s0 : CStr) : Option DecNum :=
  let s := pyStrip s0
  let p1 := parseSign s
  let g1 := digRun p1.2
  let dotted : Bool × (Nat × Nat × CStr) :=
    match g1.2.2 with
    | '.' :: t2 => (true, digRun t2)
    | r1 => (false, (0, 0, r1))
  let fv := dotted.2.1
  let fcnt := dotted.2.2.1
  let r2 := dotted.2.2.2
  if g1.2.1 + fcnt = 0 then none
  else
    let mBase : Int := ((g1.1 * 10 ^ fcnt + fv : Nat) : Int)
    let mant : Int := if p1.1 then -mBase else mBase
    match r2 with
    | [] => some ⟨mant, -(fcnt : Int)⟩
    | c :: t3 =>
      if c = 'e' || c = 'E' then
        let p2 := parseSign t3
        let g2 := digRun p2.2
        if g2.2.1 = 0 || !g2.2.2.isEmpty then none
        else
          let ev : Int := if p2.1 then -(g2.1 : Int) else (g2.1 : Int)
          some ⟨mant, ev - (fcnt : Int)⟩
      else none

/-- A binary64 value as Python stores floats: a finite `m * 2 ^ e`
(with `|m| < 2 ^ 53`, as produced by the rounding below) or an infinity.
`nan` never reaches the size parser (`floatLit` rejects the spelling;
observably identical, since `int(nan)` raises just as a parse failure
does). -/
inductive PyFloat : Type where
  | finite (m : Int) (e : Int) : PyFloat
  | inf (neg : Bool) : PyFloat
deriving Repr, DecidableEq

/-- Bit length of a natural number (fueled division loop; fuel `n + 1`
always suffices, the recursion depth being the bit length itself). -/
def bitlenF : Nat → Nat → Nat
  | 0, _ => 0
  | fuel + 1, n => if n = 0 then 0 else bitlenF fuel (n / 2) + 1

/-- Bit length: `2 ^ (bitlen n - 1) ≤ n < 2 ^ bitlen n` for positive `n`. -/
def bitlen (n : Nat) : Nat := bitlenF (n + 1) n

/-- Number of decimal digits (fueled like `bitlen`). -/
def digitsCountF : Nat → Nat → Nat
  | 0, _ => 1
  | fuel + 1, n => if n < 10 then 1 else digitsCountF fuel (n / 10) + 1

/-- Number of decimal digits: `n < 10 ^ digitsCount n`. -/
def digitsCount (n : Nat) : Nat := digitsCountF (n + 1) n

/-- `b * 2 ^ e ≤ a` for an integer exponent `e` (both sides scaled by
`2 ^ (-e)` when `e` is negative). -/
def shiftGe (a b : Nat) (e : Int) : Bool :=
  if 0 ≤ e then b * 2 ^ e.toNat ≤ a else b ≤ a * 2 ^ (-e).toNat

/-- Round `num / den` (`den > 0`) to the nearest integer, ties to even —
the IEEE-754 default rounding, applied on the exact rational. -/
def rdHalfEven (num den : Nat) : Nat :=
  let q := num / den
  let r := num % den
  if 2 * r < den then q
  else if den < 2 * r then q + 1
  else if q % 2 = 0 then q else q + 1

/-- Final step shared by every binary64 rounding: a zero result is zero,
a mantissa carry (`q = 2 ^ 53` after rounding up) renormalizes, and a
value reaching `2 ^ 1024` overflows to infinity.  The overflow test is
phrased through the bit length: for `q > 0` and `p ≥ 0`,
`2 ^ 1024 ≤ q * 2 ^ p` holds exactly when `bitlen q + p ≥ 1025` (since
`2 ^ (bitlen q - 1) ≤ q < 2 ^ bitlen q`), and a positive value below
`2 ^ 53` with `p < 0` can never reach `2 ^ 1024`. -/
def finishRound (neg : Bool) (q : Nat) (p : Int) : PyFloat :=
  if q = 0 then .finite 0 0
  else
    let qp : Nat × Int := if 2 ^ 53 ≤ q then (q / 2, p + 1) else (q, p)
    if 0 ≤ qp.2 ∧ 1025 ≤ (bitlen qp.1 : Int) + qp.2 then .inf neg
    else .finite (if neg then -(qp.1 : Int) else (qp.1 : Int)) qp.2

/-- Correctly-rounded conversion of the exact decimal `m10 * 10 ^ x` to
binary64 — what Python `float` does with a parsed literal.  The value is
the exact rational `a / b`; the floor-log₂ exponent `e`
(`b * 2 ^ e ≤ a < b * 2 ^ (e + 1)`) is the bit-length difference,
corrected by at most one (`b * 2 ^ (A - B - 1) < 2 ^ (A - 1) ≤ a` always
holds, and `a < 2 ^ A ≤ b * 2 ^ (A - B + 1)`); the mantissa is rounded at
the IEEE target weight `p = max (e - 52) (-1074)` (normal numbers get 53
bits, subnormals bottom out at `2 ^ -1074`).  The magnitude guards
short-circuit values of at least `10 ^ 309` (already past the
`(2 - 2 ^ -53) * 2 ^ 1023` overflow threshold, hence infinity) and below
`10 ^ -340` (below half the smallest subnormal `2 ^ -1074`, hence zero),
so no unbounded exponent is ever computed. -/
def roundDec10 (m10 x : Int) : PyFloat :=
  if m10 = 0 then .finite 0 0
  else
    let neg := m10 < 0
    let a0 := m10.natAbs
    let dCount : Int := (digitsCount a0 : Int)
    if 310 ≤ dCount + x then .inf neg
    else if dCount + x ≤ -340 then .finite 0 0
    else
      let a := a0 * 10 ^ x.toNat
      let b := 10 ^ (-x).toNat
      let e0 : Int := (bitlen a : Int) - (bitlen b : Int) - 1
      let e : Int := if shiftGe a b (e0 + 1) then e0 + 1 else e0
      let p : Int := max (e - 52) (-1074)
      finishRound neg (rdHalfEven (a * 2 ^ (-p).toNat) (b * 2 ^ p.toNat)) p

/-- Correctly-rounded binary64 value of the exact product `m * 2 ^ e`
(an integer mantissa scaled by a power of two): the floor-log₂ is read
off the bit length directly, and the mantissa is rounded at
`p = max (bitlen |m| + e - 53) (-1074)` as in `roundDec10`. -/
def roundB64pair (m e : Int) : PyFloat :=
  if m = 0 then .finite 0 0
  else
    let a := m.natAbs
    let p : Int := max ((bitlen a : Int) + e - 53) (-1074)
    finishRound (m < 0) (rdHalfEven (a * 2 ^ (e - p).toNat) (2 ^ (p - e).toNat)) p

/-- Python `float(s)`: parse the decimal literal and round it to
binary64. -/
def pyFloat (s : CStr) : Option PyFloat :=
  (floatLit s).map fun dd => roundDec10 dd.mant dd.exp10

/-- The binary64 product `f * factor` for a positive integer factor (the
`_SIZE_FACTORS` values, each exactly representable): the exact mantissa
product followed by one correct rounding, which is exactly the IEEE
multiplication. -/
def floatMulNat (f : PyFloat) (factor : Nat) : PyFloat :=
  match f with
  | .inf s => .inf s
  | .finite m e => roundB64pair (m * (factor : Int)) e

/-- Python `int()` of a float: truncation toward zero for finite values;
an infinite argument raises `OverflowError` (`none`). -/
def intOfFloat : PyFloat → Option Int
  | .inf _ => none
  | .finite m e =>
    some (if 0 ≤ e then m * 2 ^ e.toNat else Int.tdiv m (2 ^ (-e).toNat))

/-- `_SIZE_FACTORS` lookup on the last character. -/
def sizeFactorOf (c : Char) : Option Nat :=
  if c = 'k' then some 1024
  else if c = 'm' then some 1048576
  else if c = 'g' then some 1073741824
  else none

/-- `parse_size(s, default)`: empty input returns the default; otherwise
the input is stripped and lowercased; a recognised final unit character
sends the prefix through `float`, multiplies in binary64 by the factor
and truncates with `int` (which raises on an overflowed, infinite
product), any other final character sends the whole string through
`int`; every parse
failure (including an input that strips to empty, where `s[-1]` raises
`IndexError` inside the guarded block) raises, modelled as
`Except.error`.  The message drops the `repr` quoting of the source
(`{s!r}`); no claim concerns the message text. -/
def parseSize (s : CStr) (dflt : Int) : Except CStr Int :=
  if s.isEmpty then Except.ok dflt
  else
    let t := lowerStr (pyStrip s)
    match t.getLast? with
    | none => Except.error ("Invalid size value: ".data ++ t)
    | some c =>
      match sizeFactorOf c with
      | some f =>
        match pyFloat t.dropLast with
        | some fl =>
          (match intOfFloat (floatMulNat fl f) with
          | some v => Except.ok v
          | none => Except.error ("Invalid size value: ".data ++ t))
        | none => Except.error ("Invalid size value: ".data ++ t)
      | none =>
        match pyInt t with
        | some n => Except.ok n
        | none => Except.error ("Invalid size value: ".data ++ t)

instance {α β : Type} [DecidableEq α] [DecidableEq β] : DecidableEq (Except α β) :=
  fun x y =>
  match x, y with
  | .ok a, .ok b =>
    if h : a = b then .isTrue (by rw [h]) else .isFalse (fun hc => h (by injection hc))
  | .error a, .error b =>
    if h : a = b then .isTrue (by rw [h]) else .isFalse (fun hc => h (by injection hc))
  | .ok _, .error _ => .isFalse (fun hc => Except.noConfusion hc)
  | .error _, .ok _ => .isFalse (fun hc => Except.noConfusion hc)

/-- The contribution of one visible entry to the leaf set of the tree
rendering: a singleton for a non-directory, the recursive leaf set for a
listable directory (with a canonical fuel and an empty render prefix,
which the leaf set does not depend on). -/
def treeStep (o : Opts) (ign : CStr → Bool) (rel : CStr) (e : FSEntry) :
    List (FSEntry × CStr) :=
  if e.isDirE then
    (if e.listableOf then
      (renderVisF o ign (entryListSize e.childrenOf) (joinRel rel e.nameOf) []
        (visList o ign (joinRel rel e.nameOf) e.childrenOf)).2
     else [])
  else [(e, joinRel rel e.nameOf)]

/-! ## Auxiliary lemmas: sizes and fuel adequacy -/

theorem entrySize_pos (e : FSEntry) : 1 ≤ entrySize e := by
  cases e <;> simp [entrySize]

theorem entryListSize_pos (l : List FSEntry) : 1 ≤ entryListSize l := by
  cases l <;> simp only [entryListSize] <;> omega

theorem entrySize_lt_of_mem {e : FSEntry} {l : List FSEntry} (h : e ∈ l) :
    entrySize e < entryListSize l := by
  induction l with
  | nil => cases h
  | cons a rest ih =>
    rcases List.mem_cons.mp h with rfl | hm
    · simp only [entryListSize]; omega
    · have := ih hm; simp only [entryListSize]; omega

theorem childrenSize_lt {e : FSEntry} (h : e.isDirE = true) :
    entryListSize e.childrenOf < entrySize e := by
  cases e with
  | dir nm lst cs sym => simp [entrySize, FSEntry.childrenOf]
  | file nm sz c sym => simp [FSEntry.isDirE] at h
  | other nm sym => simp [FSEntry.isDirE] at h

theorem entryListSize_perm {l₁ l₂ : List FSEntry} (h : List.Perm l₁ l₂) :
    entryListSize l₁ = entryListSize l₂ := by
  induction h with
  | nil => rfl
  | cons x _ ih => simp only [entryListSize]; omega
  | swap x y l => simp only [entryListSize]; omega
  | trans _ _ ih₁ ih₂ => omega

theorem entryListSize_filter_le (p : FSEntry → Bool) (l : List FSEntry) :
    entryListSize (l.filter p) ≤ entryListSize l := by
  induction l with
  | nil => simp
  | cons a rest ih =>
    cases hp : p a <;> simp only [List.filter_cons, hp, if_true, if_false,
      Bool.false_eq_true, Bool.true_eq_false, reduceIte] <;>
      simp only [entryListSize] <;> omega

theorem entryListSize_append (l₁ l₂ : List FSEntry) :
    entryListSize (l₁ ++ l₂) + 1 = entryListSize l₁ + entryListSize l₂ := by
  induction l₁ with
  | nil => simp only [List.nil_append, entryListSize]; omega
  | cons e rest ih =>
    have he : entryListSize ((e :: rest) ++ l₂) =
        1 + entrySize e + entryListSize (rest ++ l₂) := by
      simp only [List.cons_append, entryListSize]
      rfl
    rw [he, show entryListSize (e :: rest) = 1 + entrySize e + entryListSize rest from rfl]
    omega

theorem entryListSize_sortEntries (cs : List FSEntry) :
    entryListSize (sortEntries cs) = entryListSize cs :=
  entryListSize_perm (List.perm_insertionSort treeSortRel cs)

theorem entryListSize_visList_le (o : Opts) (ign : CStr → Bool) (rel : CStr)
    (cs : List FSEntry) : entryListSize (visList o ign rel cs) ≤ entryListSize cs := by
  unfold visList
  exact (entryListSize_filter_le _ _).trans (entryListSize_sortEntries cs).le

theorem keptDirsOf_mem {o : Opts} {ign : CStr → Bool} {dirRel : CStr}
    {children : List FSEntry} {d : FSEntry} (h : d ∈ keptDirsOf o ign dirRel children) :
    d ∈ children ∧ d.isDirE = true ∧
      shouldSkip o ign d (joinRel dirRel d.nameOf ++ ['/']) = false := by
  unfold keptDirsOf at h
  have h' := List.mem_filter.mp h
  refine ⟨h'.1, ?_, ?_⟩
  · exact (Bool.and_eq_true ..|>.mp h'.2).1
  · have := (Bool.and_eq_true ..|>.mp h'.2).2
    simpa using this

theorem walkF_fuel_irrel (o : Opts) (ign : CStr → Bool) :
    ∀ f₁ f₂ rel (cs : List FSEntry), entryListSize cs ≤ f₁ → entryListSize cs ≤ f₂ →
      walkF o ign f₁ rel cs = walkF o ign f₂ rel cs := by
  intro f₁
  induction f₁ with
  | zero =>
    intro f₂ rel cs h₁ _
    exact absurd h₁ (by have := entryListSize_pos cs; omega)
  | succ f₁ ih =>
    intro f₂ rel cs h₁ h₂
    match f₂ with
    | 0 => exact absurd h₂ (by have := entryListSize_pos cs; omega)
    | f₂ + 1 =>
      simp only [walkF]
      congr 1
      refine List.flatMap_congr fun d hd => ?_
      obtain ⟨hmem, hdir, -⟩ := keptDirsOf_mem hd
      have hcs : entryListSize d.childrenOf < entryListSize cs :=
        (childrenSize_lt hdir).trans (entrySize_lt_of_mem hmem)
      cases hl : d.listableOf
      · simp
      · simp only [if_true]
        exact ih f₂ _ _ (by omega) (by omega)

theorem renderVisF_fuel_irrel (o : Opts) (ign : CStr → Bool) :
    ∀ f₁ f₂ rel pfx (l : List FSEntry), entryListSize l ≤ f₁ → entryListSize l ≤ f₂ →
      renderVisF o ign f₁ rel pfx l = renderVisF o ign f₂ rel pfx l := by
  intro f₁
  induction f₁ with
  | zero =>
    intro f₂ rel pfx l h₁ _
    exact absurd h₁ (by have := entryListSize_pos l; omega)
  | succ f₁ ih =>
    intro f₂ rel pfx l h₁ h₂
    match f₂ with
    | 0 => exact absurd h₂ (by have := entryListSize_pos l; omega)
    | f₂ + 1 =>
      match l with
      | [] => simp [renderVisF]
      | e :: rest =>
        have hre : entryListSize rest ≤ f₁ ∧ entryListSize rest ≤ f₂ := by
          have he := entrySize_pos e
          simp only [entryListSize] at h₁ h₂; omega
        have htail := ih f₂ rel pfx rest hre.1 hre.2
        simp only [renderVisF]
        rw [htail]
        cases hd : e.isDirE
        · simp [hd]
        · have hcs : entryListSize e.childrenOf < entrySize e := childrenSize_lt hd
          have hv := entryListSize_visList_le o ign (joinRel rel e.nameOf) e.childrenOf
          have hb₁ :
              entryListSize (visList o ign (joinRel rel e.nameOf) e.childrenOf) ≤ f₁ := by
            simp only [entryListSize] at h₁; omega
          have hb₂ :
              entryListSize (visList o ign (joinRel rel e.nameOf) e.childrenOf) ≤ f₂ := by
            simp only [entryListSize] at h₂; omega
          rw [ih f₂ (joinRel rel e.nameOf)
            (pfx ++ (if rest.isEmpty then "    ".data else "│   ".data))
            (visList o ign (joinRel rel e.nameOf) e.childrenOf) hb₁ hb₂]

/-! ## Auxiliary lemmas: the tree traversal and the walk select the same
files -/

theorem renderVisF_snd_pfx (o : Opts) (ign : CStr → Bool) :
    ∀ f rel pfx pfx' (l : List FSEntry),
      (renderVisF o ign f rel pfx l).2 = (renderVisF o ign f rel pfx' l).2 := by
  intro f
  induction f with
  | zero => intro rel pfx pfx' l; rfl
  | succ f ih =>
    intro rel pfx pfx' l
    match l with
    | [] => rfl
    | e :: rest =>
      simp only [renderVisF]
      cases hd : e.isDirE
      · simp only [hd, Bool.false_eq_true, reduceIte]
        rw [ih rel pfx pfx' rest]
      · simp only [hd, reduceIte]
        cases hl : e.listableOf
        · simp only [hl, Bool.false_eq_true, reduceIte]
          rw [ih rel pfx pfx' rest]
        · simp only [hl, reduceIte]
          rw [ih rel pfx pfx' rest,
            ih (joinRel rel e.nameOf)
              (pfx ++ (if rest.isEmpty then "    ".data else "│   ".data))
              (pfx' ++ (if rest.isEmpty then "    ".data else "│   ".data))
              (visList o ign (joinRel rel e.nameOf) e.childrenOf)]

theorem renderVisF_snd_flat (o : Opts) (ign : CStr → Bool) :
    ∀ f rel pfx (l : List FSEntry), entryListSize l ≤ f →
      (renderVisF o ign f rel pfx l).2 = l.flatMap (treeStep o ign rel) := by
  intro f
  induction f with
  | zero =>
    intro rel pfx l h
    exact absurd h (by have := entryListSize_pos l; omega)
  | succ f ih =>
    intro rel pfx l h
    match l with
    | [] => simp [renderVisF]
    | e :: rest =>
      have hrest : entryListSize rest ≤ f := by
        have := entrySize_pos e
        simp only [entryListSize] at h; omega
      simp only [renderVisF, List.flatMap_cons]
      cases hd : e.isDirE
      · simp only [hd, Bool.false_eq_true, reduceIte, treeStep]
        rw [ih rel pfx rest hrest]
        rfl
      · simp only [hd, reduceIte, treeStep]
        cases hl : e.listableOf
        · simp only [hl, Bool.false_eq_true, reduceIte]
          rw [ih rel pfx rest hrest]
        · simp only [hl, reduceIte]
          rw [ih rel pfx rest hrest]
          have hvb : entryListSize (visList o ign (joinRel rel e.nameOf) e.childrenOf) ≤
              entryListSize e.childrenOf :=
            entryListSize_visList_le o ign _ _
          have hcb : entryListSize e.childrenOf < entrySize e := childrenSize_lt hd
          have hfb : entryListSize (visList o ign (joinRel rel e.nameOf) e.childrenOf) ≤ f := by
            simp only [entryListSize] at h; omega
          rw [renderVisF_fuel_irrel o ign f (entryListSize e.childrenOf) _ _ _ hfb
              (le_trans hvb le_rfl),
            renderVisF_snd_pfx o ign (entryListSize e.childrenOf) _
              (pfx ++ (if rest.isEmpty then "    ".data else "│   ".data)) [] _]

theorem flatMap_split_perm {α β : Type} (p : α → Bool) (f : α → List β) :
    ∀ l : List α,
      List.Perm (l.flatMap f)
        ((l.filter p).flatMap f ++ (l.filter fun x => !p x).flatMap f) := by
  intro l
  induction l with
  | nil => simp
  | cons a rest ih =>
    cases hp : p a
    · simp only [List.flatMap_cons, List.filter_cons, hp, Bool.not_false,
        Bool.false_eq_true, reduceIte]
      refine (ih.append_left (f a)).trans ?_
      rw [← List.append_assoc]
      refine (List.perm_append_comm.append_right _).trans ?_
      rw [List.append_assoc]
    · simp only [List.flatMap_cons, List.filter_cons, hp, Bool.not_true,
        Bool.false_eq_true, reduceIte]
      rw [List.append_assoc]
      exact ih.append_left (f a)

theorem tree_walk_perm (o : Opts) (ign : CStr → Bool) :
    ∀ n (cs : List FSEntry) rel f₁ f₂, entryListSize cs ≤ n →
      entryListSize cs ≤ f₁ → entryListSize cs ≤ f₂ →
      List.Perm ((renderVisF o ign f₁ rel [] (visList o ign rel cs)).2)
        (walkF o ign f₂ rel cs) := by
  intro n
  induction n with
  | zero =>
    intro cs rel f₁ f₂ hn
    exact absurd hn (by have := entryListSize_pos cs; omega)
  | succ n ih =>
    intro cs rel f₁ f₂ hn h₁ h₂
    have hvis : entryListSize (visList o ign rel cs) ≤ f₁ :=
      le_trans (entryListSize_visList_le o ign rel cs) h₁
    rw [renderVisF_snd_flat o ign f₁ rel [] _ hvis]
    have hsp : List.Perm (visList o ign rel cs)
        (cs.filter fun e =>
          !shouldSkip o ign e (joinRel rel e.nameOf ++ (if e.isDirE then ['/'] else []))) :=
      (List.perm_insertionSort treeSortRel cs).filter _
    refine (hsp.flatMap_right _).trans ?_
    refine (flatMap_split_perm (fun e => !e.isDirE) _ _).trans ?_
    match f₂ with
    | 0 => exact absurd h₂ (by have := entryListSize_pos cs; omega)
    | f₂ + 1 =>
      simp only [walkF]
      refine List.Perm.append ?_ ?_
      · -- files: the two filters coincide and each left-over step is a singleton
        rw [List.filter_filter]
        rw [List.filter_congr (q := fun e =>
            !e.isDirE && !shouldSkip o ign e (joinRel rel e.nameOf)) ?hq]
        case hq =>
          intro e _
          cases hd : e.isDirE <;> simp [hd]
        rw [List.flatMap_congr (g := fun e => [(e, joinRel rel e.nameOf)]) ?hg]
        case hg =>
          intro e he
          have hd := (Bool.and_eq_true ..|>.mp (List.mem_filter.mp he).2).1
          simp only [treeStep]
          simp only [Bool.not_eq_true'] at hd
          simp [hd]
        rw [← List.map_eq_flatMap]
        exact List.Perm.refl _
      · -- directories: same kept set, recursive permutation per directory
        rw [List.filter_filter]
        rw [List.filter_congr (q := fun e =>
            e.isDirE && !shouldSkip o ign e (joinRel rel e.nameOf ++ ['/'])) ?hq2]
        case hq2 =>
          intro e _
          cases hd : e.isDirE <;> simp [hd]
        refine List.Perm.flatMap_left _ ?_
        intro d hd
        have hmem := List.mem_filter.mp hd
        have hdir := (Bool.and_eq_true ..|>.mp hmem.2).1
        have hlt : entryListSize d.childrenOf < entryListSize cs :=
          (childrenSize_lt hdir).trans (entrySize_lt_of_mem hmem.1)
        simp only [treeStep, hdir, reduceIte]
        cases hl : d.listableOf
        · simp
        · simp only [reduceIte]
          exact ih d.childrenOf (joinRel rel d.nameOf) (entryListSize d.childrenOf) f₂
            (by omega) le_rfl (by omega)

/-! ## Auxiliary lemmas: soundness of the walk and substring plumbing -/

theorem shouldSkip_of_ign {o : Opts} {ign : CStr → Bool} {e : FSEntry} {rel : CStr}
    (h : ign rel = true) : shouldSkip o ign e rel = true := by
  unfold shouldSkip
  by_cases h1 : (!o.includeHidden && hiddenRelB rel) = true <;> simp [h1, h]

theorem walkF_mem_skip_false (o : Opts) (ign : CStr → Bool) :
    ∀ fuel rel (cs : List FSEntry) pr, pr ∈ walkF o ign fuel rel cs →
      shouldSkip o ign pr.1 pr.2 = false := by
  intro fuel
  induction fuel with
  | zero => intro rel cs pr h; cases h
  | succ fuel ih =>
    intro rel cs pr h
    simp only [walkF, List.mem_append] at h
    rcases h with h | h
    · unfold keptFilesOf at h
      obtain ⟨e, he, rfl⟩ := List.mem_map.mp h
      have h2 := (Bool.and_eq_true ..|>.mp (List.mem_filter.mp he).2).2
      simpa using h2
    · obtain ⟨d, hd, hin⟩ := List.mem_flatMap.mp h
      cases hl : d.listableOf
      · rw [hl] at hin; simp at hin
      · rw [hl] at hin; simp only [if_true] at hin
        exact ih _ _ pr hin

theorem mem_catAll_piece {l : List CStr} {x : CStr} (h : x ∈ l) :
    ∃ a b, catAll l = a ++ x ++ b := by
  induction l with
  | nil => cases h
  | cons y rest ih =>
    rcases List.mem_cons.mp h with rfl | hm
    · exact ⟨[], catAll rest, by simp [catAll]⟩
    · obtain ⟨a, b, hab⟩ := ih hm
      refine ⟨y ++ a, b, ?_⟩
      simp only [catAll, List.flatMap_cons, id] at hab ⊢
      rw [hab]
      simp [List.append_assoc]

/-! ## Claim theorems -/

/-- C2: for every root directory state and every option configuration
(including an arbitrary ignore predicate), the set of relative paths of
files rendered as leaf (non-directory) entries by the tree renderer is
exactly the set of relative paths of files for which the document
assembler emits a content section (`iterFiles` is the list the assembler
maps sections over; the second component of `renderTreeParts` collects
precisely the entries given leaf lines). -/
theorem claim2_tree_content_consistency (o : Opts) (ign : CStr → Bool)
    (rootLabel : CStr) (cs : List FSEntry) (r : CStr) :
    r ∈ ((renderTreeParts o ign rootLabel cs).2).map Prod.snd ↔
      r ∈ (iterFiles o ign cs).map Prod.snd := by
  have hp := tree_walk_perm o ign (entryListSize cs) cs [] (entryListSize cs)
    (entryListSize cs) le_rfl le_rfl le_rfl
  simp only [renderTreeParts, iterFiles]
  exact (hp.map Prod.snd).mem_iff

/-- C5: a directory that the visibility filter skips is pruned before
descent, wherever it sits among its siblings — the walk of a listing
`pre ++ dir :: rest` equals the walk of `pre ++ rest`, so everything
beneath the directory (visible or not) is absent, at every fuel, and in
particular `iterFiles` (the root-level walk, `dirRel = []`) never yields
any file beneath it. -/
theorem claim5_prune (o : Opts) (ign : CStr → Bool) (nm : CStr) (lst : Bool)
    (sub : List FSEntry) (sym : Bool) (dirRel : CStr)
    (h : shouldSkip o ign (FSEntry.dir nm lst sub sym) (joinRel dirRel nm ++ ['/']) = true) :
    (∀ fuel (pre rest : List FSEntry),
      walkF o ign fuel dirRel (pre ++ FSEntry.dir nm lst sub sym :: rest) =
        walkF o ign fuel dirRel (pre ++ rest)) ∧
    (dirRel = [] → ∀ (pre rest : List FSEntry),
      iterFiles o ign (pre ++ FSEntry.dir nm lst sub sym :: rest) =
        iterFiles o ign (pre ++ rest)) := by
  have hfilt : ∀ (p : FSEntry → Bool), p (FSEntry.dir nm lst sub sym) = false →
      ∀ (pre rest : List FSEntry),
      (pre ++ FSEntry.dir nm lst sub sym :: rest).filter p = (pre ++ rest).filter p := by
    intro p hp pre rest
    rw [List.filter_append, List.filter_append, List.filter_cons, hp]
    simp
  have hstep : ∀ fuel (pre rest : List FSEntry),
      walkF o ign fuel dirRel (pre ++ FSEntry.dir nm lst sub sym :: rest) =
        walkF o ign fuel dirRel (pre ++ rest) := by
    intro fuel pre rest
    cases fuel with
    | zero => rfl
    | succ fuel =>
      have hf : keptFilesOf o ign dirRel (pre ++ FSEntry.dir nm lst sub sym :: rest) =
          keptFilesOf o ign dirRel (pre ++ rest) := by
        unfold keptFilesOf
        rw [hfilt _ (by simp [FSEntry.isDirE]) pre rest]
      have hd : keptDirsOf o ign dirRel (pre ++ FSEntry.dir nm lst sub sym :: rest) =
          keptDirsOf o ign dirRel (pre ++ rest) := by
        unfold keptDirsOf
        rw [hfilt _ (by simp [FSEntry.isDirE, FSEntry.nameOf, h]) pre rest]
      simp only [walkF, hf, hd]
  refine ⟨hstep, ?_⟩
  intro hroot pre rest
  subst hroot
  unfold iterFiles
  rw [hstep _ pre rest]
  refine walkF_fuel_irrel o ign _ _ [] (pre ++ rest) ?_ le_rfl
  have h1 := entryListSize_append pre (FSEntry.dir nm lst sub sym :: rest)
  have h2 := entryListSize_append pre rest
  have h3 := entrySize_pos (FSEntry.dir nm lst sub sym)
  simp only [entryListSize] at h1
  omega

/-- Witness for C5 at a concrete input: with default options and the
default ignore patterns, a root whose second entry is a `.git` directory
(skipped: hidden, and it matches the `.git/` pattern) containing a file
that would itself pass the filter yields exactly what the root without
the `.git` subtree yields. -/
theorem claim5_prune_witness :
    iterFiles defaultOpts (miniSpecMatch DEFAULT_GLOBAL_IGNORES)
      [FSEntry.file "a.txt".data 1 (some [97]) false,
       FSEntry.dir ".git".data true
         [FSEntry.file "config.txt".data 1 (some [97]) false] false,
       FSEntry.file "b.txt".data 1 (some [98]) false] =
    iterFiles defaultOpts (miniSpecMatch DEFAULT_GLOBAL_IGNORES)
      [FSEntry.file "a.txt".data 1 (some [97]) false,
       FSEntry.file "b.txt".data 1 (some [98]) false] :=
  (claim5_prune defaultOpts (miniSpecMatch DEFAULT_GLOBAL_IGNORES) ".git".data true
    [FSEntry.file "config.txt".data 1 (some [97]) false] false [] (by decide)).2 rfl
    [FSEntry.file "a.txt".data 1 (some [97]) false]
    [FSEntry.file "b.txt".data 1 (some [98]) false]

/-- C6: a non-symlink regular file that passes the hidden and ignore
checks is skipped by the visibility filter exactly when its size strictly
exceeds `max_file_size`; concretely, with `max_file_size = 10` an 11-byte
file is excluded from both the tree leaves and the collected content
files while a 9-byte file appears in both. -/
theorem claim6_size_limit :
    (∀ (o : Opts) (ign : CStr → Bool) (nm : CStr) (sz : Nat)
      (c : Option (List Nat)) (rel : CStr),
      (o.includeHidden = true ∨ hiddenRelB rel = false) → ign rel = false →
      shouldSkip o ign (FSEntry.file nm sz c false) rel = decide (sz > o.maxFileSize)) ∧
    ("small.txt".data ∈
        (iterFiles { defaultOpts with maxFileSize := 10 } (fun _ => false)
          [FSEntry.file "big.txt".data 11 (some (List.replicate 11 97)) false,
           FSEntry.file "small.txt".data 9 (some (List.replicate 9 97)) false]).map
          Prod.snd ∧
      "big.txt".data ∉
        (iterFiles { defaultOpts with maxFileSize := 10 } (fun _ => false)
          [FSEntry.file "big.txt".data 11 (some (List.replicate 11 97)) false,
           FSEntry.file "small.txt".data 9 (some (List.replicate 9 97)) false]).map
          Prod.snd ∧
      "small.txt".data ∈
        ((renderTreeParts { defaultOpts with maxFileSize := 10 } (fun _ => false)
          "root".data
          [FSEntry.file "big.txt".data 11 (some (List.replicate 11 97)) false,
           FSEntry.file "small.txt".data 9 (some (List.replicate 9 97)) false]).2).map
          Prod.snd ∧
      "big.txt".data ∉
        ((renderTreeParts { defaultOpts with maxFileSize := 10 } (fun _ => false)
          "root".data
          [FSEntry.file "big.txt".data 11 (some (List.replicate 11 97)) false,
           FSEntry.file "small.txt".data 9 (some (List.replicate 9 97)) false]).2).map
          Prod.snd) := by
  constructor
  · intro o ign nm sz c rel hh hi
    have h1 : (!o.includeHidden && hiddenRelB rel) = false := by
      rcases hh with h | h <;> simp [h]
    unfold shouldSkip
    simp only [h1, hi, FSEntry.isFileE, FSEntry.sizeOfFile, FSEntry.symlinkOf,
      Bool.false_eq_true, reduceIte, Bool.true_and, Bool.false_and]
    by_cases hs : sz > o.maxFileSize <;> simp [hs]
  · refine ⟨by decide, by decide, by decide, by decide⟩

/-- Witness for C6 at a concrete input: with maximum size 10, an ignore
predicate that matches nothing, and a non-hidden relative path, the filter
skips an 11-byte regular file and keeps a 9-byte one. -/
theorem claim6_size_limit_witness :
    shouldSkip { defaultOpts with maxFileSize := 10 } (fun _ => false)
        (FSEntry.file "big.txt".data 11 (some (List.replicate 11 97)) false)
        "big.txt".data = true ∧
    shouldSkip { defaultOpts with maxFileSize := 10 } (fun _ => false)
        (FSEntry.file "small.txt".data 9 (some (List.replicate 9 97)) false)
        "small.txt".data = false := by
  constructor
  · rw [claim6_size_limit.1 { defaultOpts with maxFileSize := 10 } (fun _ => false)
      "big.txt".data 11 (some (List.replicate 11 97)) "big.txt".data
      (Or.inr (by decide)) rfl]
    decide
  · rw [claim6_size_limit.1 { defaultOpts with maxFileSize := 10 } (fun _ => false)
      "small.txt".data 9 (some (List.replicate 9 97)) "small.txt".data
      (Or.inr (by decide)) rfl]
    decide

/-- C10: the binary detector is total on readable files — a readable
zero-byte file is classified as text, and the denominator of the
non-text-fraction computation, `max 1 (length of the sample)`, is never
zero. -/
theorem claim10_detector_total :
    (∀ n, isProbablyBinary n (some []) = false) ∧
    (∀ (bs : List Nat) n, 0 < max 1 (bs.take n).length) := by
  constructor
  · intro n; simp [isProbablyBinary, nontextCount]
  · intro bs n; omega

theorem append_chain_piece {x y : CStr} (P : CStr) (h : ∃ a b, y = a ++ x ++ b) :
    ∃ a b, P ++ y = a ++ x ++ b := by
  obtain ⟨a, b', rfl⟩ := h
  exact ⟨P ++ a, b', by simp [List.append_assoc]⟩

theorem frac_gt_iff_cross (N M : Nat) (hM : 0 < M) :
    ((N : ℚ) / (M : ℚ) > 3 / 10) ↔ 10 * N > 3 * M := by
  rw [gt_iff_lt, div_lt_div_iff₀ (by norm_num) (by exact_mod_cast hM)]
  rw [show ((3 : ℚ) * (M : ℚ)) = ((3 * M : Nat) : ℚ) by push_cast; ring,
    show ((N : ℚ) * 10) = ((10 * N : Nat) : ℚ) by push_cast; ring,
    Nat.cast_lt]

/-- C4: the binary detector (i) depends only on the first `readBytes`
sampled bytes (2048 by default at every call site), (ii) classifies a
readable file as binary exactly when a NUL byte occurs in the sample or
the fraction of sampled bytes outside the text set strictly exceeds 3/10,
(iii) classifies every unreadable file as binary, and (iv) consequently a
file with a NUL byte among its first 2048 bytes is never read as text and
both document section formats carry the placeholder for it. -/
theorem claim4_binary_detector :
    (∀ (n : Nat) (c₁ c₂ : List Nat), c₁.take n = c₂.take n →
      isProbablyBinary n (some c₁) = isProbablyBinary n (some c₂)) ∧
    (∀ (n : Nat) (bs : List Nat),
      isProbablyBinary n (some bs) = true ↔
        (0 ∈ bs.take n ∨
          ((nontextCount (bs.take n) : ℚ) /
            ((max 1 (bs.take n).length : Nat) : ℚ) > 3 / 10))) ∧
    (∀ n, isProbablyBinary n none = true) ∧
    (∀ (dec : List Nat → CStr) (nm : CStr) (sz : Nat) (bs : List Nat) (sym : Bool)
      (rel : CStr), 0 ∈ bs.take 2048 →
      readTextM dec (FSEntry.file nm sz (some bs) sym) = none ∧
       List.IsInfix placeholder
        (txtSection dec (FSEntry.file nm sz (some bs) sym, rel)) ∧
       List.IsInfix placeholder
        (mdSection dec (FSEntry.file nm sz (some bs) sym, rel))) := by
  have hiff : ∀ (n : Nat) (bs : List Nat),
      isProbablyBinary n (some bs) = true ↔
        (0 ∈ bs.take n ∨
          ((nontextCount (bs.take n) : ℚ) /
            ((max 1 (bs.take n).length : Nat) : ℚ) > 3 / 10)) := by
    intro n bs
    simp only [isProbablyBinary]
    by_cases h0 : (bs.take n).contains 0
    · simp only [h0, reduceIte, true_iff]
      exact Or.inl (List.mem_of_elem_eq_true h0)
    · have h0' : 0 ∉ bs.take n := fun hm => h0 (List.elem_eq_true_of_mem hm)
      simp only [h0, Bool.false_eq_true, reduceIte, decide_eq_true_iff]
      rw [iff_comm, or_iff_right h0']
      rw [frac_gt_iff_cross _ _ (by omega)]
  refine ⟨?_, hiff, ?_, ?_⟩
  · intro n c₁ c₂ h
    simp only [isProbablyBinary]
    rw [h]
  · intro n; rfl
  · intro dec nm sz bs sym rel h
    have hbin : isProbablyBinary 2048 (some bs) = true :=
      (hiff 2048 bs).mpr (Or.inl h)
    have hrt : readTextM dec (FSEntry.file nm sz (some bs) sym) = none := by
      simp [readTextM, hbin]
    refine ⟨hrt, ?_, ?_⟩
    · refine ⟨"--- BEGIN FILE: ".data ++ rel ++ " ---\n".data,
        "--- END FILE: ".data ++ rel ++ " ---\n\n".data, ?_⟩
      simp [txtSection, txtBody, hrt, List.append_assoc]
    · refine ⟨"### `".data ++ rel ++ "`\n\n".data ++ "```".data ++
        guessLang (FSEntry.file nm sz (some bs) sym).nameOf ++ ['\n'],
        ['\n'] ++ "```\n\n".data, ?_⟩
      simp [mdSection, mdBody, hrt, List.append_assoc]

/-- Witness for C4 at concrete inputs: the sample-bound part at two byte
lists agreeing on their first four bytes, and the NUL-byte consequence at
the three-byte file `00 01 02`. -/
theorem claim4_binary_detector_witness :
    isProbablyBinary 4 (some [0, 1, 2, 3, 9, 9]) =
      isProbablyBinary 4 (some [0, 1, 2, 3, 7, 7]) ∧
    readTextM (fun _ => []) (FSEntry.file "b.bin".data 3 (some [0, 1, 2]) false) = none ∧
     List.IsInfix placeholder
      (txtSection (fun _ => []) (FSEntry.file "b.bin".data 3 (some [0, 1, 2]) false,
        "b.bin".data)) := by
  have h1 := claim4_binary_detector.1 4 [0, 1, 2, 3, 9, 9] [0, 1, 2, 3, 7, 7] (by decide)
  have h2 := claim4_binary_detector.2.2.2 (fun _ => []) "b.bin".data 3 [0, 1, 2] false
    "b.bin".data (by decide)
  exact ⟨h1, h2.1, h2.2.1⟩

/-- C7: non-fatal per-file conditions are folded into the document.  A
non-regular entry and an unreadable file both read as `none`; any `none`
read renders as the placeholder inside the file section in both formats
(`dec`, modelling `errors="replace"` decoding, is total — invalid byte
sequences substitute rather than fail); and for every collected file the
assembled document contains that section, so `buildDoc` always returns the
complete document. -/
theorem claim7_error_folding :
    (∀ (dec : List Nat → CStr) (e : FSEntry), e.isFileE = false →
      readTextM dec e = none) ∧
    (∀ (dec : List Nat → CStr) (nm : CStr) (sz : Nat) (sym : Bool),
      readTextM dec (FSEntry.file nm sz none sym) = none) ∧
    (∀ (dec : List Nat → CStr) (pr : FSEntry × CStr), readTextM dec pr.1 = none →
       List.IsInfix placeholder (txtSection dec pr) ∧
       List.IsInfix placeholder (mdSection dec pr)) ∧
    (∀ (o : Opts) (ign : CStr → Bool) (dec : List Nat → CStr)
      (rootLabel rootStr now : CStr) (cs : List FSEntry) (pr : FSEntry × CStr),
      pr ∈ iterFiles o ign cs → (o.fmt == "txt".data) = true →
      ∃ a b, buildDoc o ign dec rootLabel rootStr now cs = a ++ txtSection dec pr ++ b) ∧
    (∀ (o : Opts) (ign : CStr → Bool) (dec : List Nat → CStr)
      (rootLabel rootStr now : CStr) (cs : List FSEntry) (pr : FSEntry × CStr),
      pr ∈ iterFiles o ign cs → (o.fmt == "txt".data) = false →
      ∃ a b, buildDoc o ign dec rootLabel rootStr now cs = a ++ mdSection dec pr ++ b) := by
  refine ⟨?_, ?_, ?_, ?_, ?_⟩
  · intro dec e he
    cases e with
    | file nm sz c sym => simp [FSEntry.isFileE] at he
    | dir nm l cs sym => rfl
    | other nm sym => rfl
  · intro dec nm sz sym; rfl
  · intro dec pr h
    constructor
    · refine ⟨"--- BEGIN FILE: ".data ++ pr.2 ++ " ---\n".data,
        "--- END FILE: ".data ++ pr.2 ++ " ---\n\n".data, ?_⟩
      simp [txtSection, txtBody, h, List.append_assoc]
    · refine ⟨"### `".data ++ pr.2 ++ "`\n\n".data ++ "```".data ++
        guessLang pr.1.nameOf ++ ['\n'], ['\n'] ++ "```\n\n".data, ?_⟩
      simp [mdSection, mdBody, h, List.append_assoc]
  · intro o ign dec rootLabel rootStr now cs pr hmem hfmt
    simp only [buildDoc, hfmt, reduceIte]
    exact append_chain_piece _
      (mem_catAll_piece (List.mem_map_of_mem (txtSection dec) hmem))
  · intro o ign dec rootLabel rootStr now cs pr hmem hfmt
    simp only [buildDoc, hfmt, Bool.false_eq_true, reduceIte]
    exact append_chain_piece _
      (mem_catAll_piece (List.mem_map_of_mem (mdSection dec) hmem))

/-- Witness for C7 at a concrete input: a root holding one unreadable file
(default Markdown format); its read is `none`, its section carries the
placeholder, and the built document contains that section. -/
theorem claim7_error_folding_witness :
    readTextM (fun _ => []) (FSEntry.file "f.txt".data 1 none false) = none ∧
     List.IsInfix placeholder
      (mdSection (fun _ => []) (FSEntry.file "f.txt".data 1 none false, "f.txt".data)) ∧
    (∃ a b,
      buildDoc defaultOpts (fun _ => false) (fun _ => [])
          "r".data "/r".data "now".data
          [FSEntry.file "f.txt".data 1 none false] =
        a ++ mdSection (fun _ => [])
          (FSEntry.file "f.txt".data 1 none false, "f.txt".data) ++ b) := by
  have h2 := claim7_error_folding.2.2.1 (fun _ => [])
    (FSEntry.file "f.txt".data 1 none false, "f.txt".data) rfl
  have h4 := claim7_error_folding.2.2.2.2 defaultOpts (fun _ => false) (fun _ => [])
    "r".data "/r".data "now".data [FSEntry.file "f.txt".data 1 none false]
    (FSEntry.file "f.txt".data 1 none false, "f.txt".data)
    (by rw [show iterFiles defaultOpts (fun _ => false)
          [FSEntry.file "f.txt".data 1 none false] =
        [(FSEntry.file "f.txt".data 1 none false, "f.txt".data)] from rfl]
        exact List.mem_cons_self _ _)
    (by decide)
  exact ⟨rfl, h2.2, h4⟩

/-- C8: in both output formats the emitted per-file text block ends with a
newline immediately before the closing delimiter, even when the content
does not end with one: each body ends in a newline, and each section is
exactly the opening delimiter, the body, then the closing delimiter. -/
theorem claim8_trailing_newline :
    (∀ c : Option CStr, ∃ t, txtBody c = t ++ ['\n']) ∧
    (∀ c : Option CStr, ∃ t, mdBody c = t ++ ['\n']) ∧
    (∀ (dec : List Nat → CStr) (pr : FSEntry × CStr), txtSection dec pr =
      ("--- BEGIN FILE: ".data ++ pr.2 ++ " ---\n".data) ++
        txtBody (readTextM dec pr.1) ++
        ("--- END FILE: ".data ++ pr.2 ++ " ---\n\n".data)) ∧
    (∀ (dec : List Nat → CStr) (pr : FSEntry × CStr), mdSection dec pr =
      ("### `".data ++ pr.2 ++ "`\n\n".data ++ "```".data ++
          guessLang pr.1.nameOf ++ ['\n']) ++
        mdBody (readTextM dec pr.1) ++ "```\n\n".data) := by
  refine ⟨?_, ?_, ?_, ?_⟩
  · intro c
    match c with
    | none => exact ⟨"[Skipped: binary or unreadable]".data, rfl⟩
    | some c =>
      by_cases he : endsNl c = true
      · obtain ⟨t, rfl⟩ := List.getLast?_eq_some_iff.mp (by simpa [endsNl] using he)
        exact ⟨t, by simp [txtBody, he]⟩
      · exact ⟨c, by simp [txtBody, he]⟩
  · intro c
    match c with
    | none => exact ⟨placeholder, rfl⟩
    | some c =>
      by_cases hem : c.isEmpty = true
      · exact ⟨c, by simp [mdBody, hem]⟩
      · by_cases he : endsNl c = true
        · obtain ⟨t, rfl⟩ := List.getLast?_eq_some_iff.mp (by simpa [endsNl] using he)
          exact ⟨t, by simp [mdBody, hem, he]⟩
        · exact ⟨c, by simp [mdBody, hem, he]⟩
  · intro dec pr
    simp [txtSection, List.append_assoc]
  · intro dec pr
    simp [mdSection, List.append_assoc]

set_option maxRecDepth 200000 in
/-- C1 (code behaviour at the claimed scenario, the scenario of
`tests/test_basic.py`): a root listing a text file `a.py` (bytes of
`hello` plus newline) and `binary.bin` (bytes `00 01 02`), default options
except gitignore honouring disabled.  The compiled pattern set is the
built-in global ignores — which contain `*.bin` — so `binary.bin` is
excluded from the walk and the tree alike, no placeholder section is ever
emitted, and the built document contains `a.py` but NOT the substring
`binary or unreadable` that the specification, this claim and the
repository test `tests/test_basic.py::test_run_tmp` all require. -/
theorem claim1_code_behavior :
    buildPatterns { defaultOpts with useGitignore := false } none =
      Except.ok (DEFAULT_GLOBAL_IGNORES ++ [] ++ [] ++ []) ∧
     List.IsInfix "a.py".data
      (buildDoc { defaultOpts with useGitignore := false }
        (miniSpecMatch (DEFAULT_GLOBAL_IGNORES ++ [] ++ [] ++ []))
        (fun bs => bs.map Char.ofNat)
        "sample".data "/tmp/sample".data "2026-01-01 00:00:00".data
        [FSEntry.file "a.py".data 6 (some ("hello\n".data.map Char.toNat)) false,
         FSEntry.file "binary.bin".data 3 (some [0, 1, 2]) false]) ∧
    ¬ List.IsInfix "binary or unreadable".data
      (buildDoc { defaultOpts with useGitignore := false }
        (miniSpecMatch (DEFAULT_GLOBAL_IGNORES ++ [] ++ [] ++ []))
        (fun bs => bs.map Char.ofNat)
        "sample".data "/tmp/sample".data "2026-01-01 00:00:00".data
        [FSEntry.file "a.py".data 6 (some ("hello\n".data.map Char.toNat)) false,
         FSEntry.file "binary.bin".data 3 (some [0, 1, 2]) false]) := by
  refine ⟨by decide, by decide, by decide⟩

/-- C3 counterexample: the input `1.5 m` is neither empty, nor a bare
integer, nor a number immediately followed by a unit suffix — by the
claim it must raise the malformed-size error — yet the parser accepts it
(Python `float` strips whitespace around the numeric prefix), returning
`int(1.5 * 1024 * 1024) = 1572864`. -/
theorem claim3_counterexample : parseSize "1.5 m".data 0 = Except.ok 1572864 := by
  decide

theorem parseSize_nonempty (s : CStr) (d : Int) (h : s ≠ []) :
    parseSize s d =
      (match (lowerStr (pyStrip s)).getLast? with
      | none => Except.error ("Invalid size value: ".data ++ lowerStr (pyStrip s))
      | some c =>
        match sizeFactorOf c with
        | some f =>
          (match pyFloat (lowerStr (pyStrip s)).dropLast with
          | some fl =>
            (match intOfFloat (floatMulNat fl f) with
            | some v => Except.ok v
            | none => Except.error ("Invalid size value: ".data ++ lowerStr (pyStrip s)))
          | none => Except.error ("Invalid size value: ".data ++ lowerStr (pyStrip s)))
        | none =>
          match pyInt (lowerStr (pyStrip s)) with
          | some n => Except.ok n
          | none => Except.error ("Invalid size value: ".data ++ lowerStr (pyStrip s))) := by
  unfold parseSize
  rw [if_neg (by simpa [List.isEmpty_iff] using h)]

/-- C3 as amended: `parse_size` satisfies the four specified equations;
it accepts a bare integer (any stripped-and-lowercased string without a
recognised unit suffix at the end that Python `int` accepts), or a
decimal float literal — fractions allowed, with whitespace tolerated
between the number and the suffix, since the numeric prefix is parsed by
Python `float`, which strips surrounding whitespace — followed by one
case-insensitive suffix `k`/`m`/`g`, the result being the binary64 value
of the literal multiplied in binary64 by 1024, 1048576 or 1073741824 and
truncated to an integer (exact for exactly-representable values, e.g.
`1.5m` is 1572864; binary64 rounding applies past `2 ^ 53`, e.g.
`9007199254740993k` is `2 ^ 63`; a product that overflows to infinity
raises, e.g. `1e999k`); and it accepts nothing else (the last conjunct:
success happens exactly for the empty string, a suffixed parsable number
whose float product converts to an integer, or a suffix-free parsable
integer). -/
theorem claim3_amended :
    (∀ d : Int, parseSize "1m".data d = Except.ok 1048576) ∧
    (∀ d : Int, parseSize "500k".data d = Except.ok 512000) ∧
    (∀ d : Int, parseSize "".data d = Except.ok d) ∧
    (∀ d : Int, ∃ msg, parseSize "abc".data d = Except.error msg) ∧
    (∀ d : Int, parseSize "1.5m".data d = Except.ok 1572864) ∧
    (∀ d : Int, parseSize "9007199254740993k".data d =
      Except.ok 9223372036854775808) ∧
    (∀ d : Int, ∃ msg, parseSize "1e999k".data d = Except.error msg) ∧
    (∀ (s : CStr) (d n : Int), lowerStr (pyStrip s) = s →
      (∀ c, s.getLast? = some c → sizeFactorOf c = none) →
      pyInt s = some n → parseSize s d = Except.ok n) ∧
    (∀ (num : CStr) (c : Char) (f : Nat) (d v : Int) (fl : PyFloat),
      lowerStr (pyStrip (num ++ [c])) = num ++ [c] →
      sizeFactorOf c = some f → pyFloat num = some fl →
      intOfFloat (floatMulNat fl f) = some v →
      parseSize (num ++ [c]) d = Except.ok v) ∧
    (∀ (s : CStr) (d : Int), (∃ v, parseSize s d = Except.ok v) ↔
      (s = [] ∨
        (∃ c f fl, (lowerStr (pyStrip s)).getLast? = some c ∧
          sizeFactorOf c = some f ∧
          pyFloat (lowerStr (pyStrip s)).dropLast = some fl ∧
          (intOfFloat (floatMulNat fl f)).isSome = true) ∨
        (((lowerStr (pyStrip s)).getLast?.bind fun c => sizeFactorOf c) = none ∧
          (pyInt (lowerStr (pyStrip s))).isSome = true))) := by
  refine ⟨fun d => rfl, fun d => rfl, fun d => rfl,
    fun d => ⟨"Invalid size value: abc".data, rfl⟩, fun d => rfl, fun d => rfl,
    fun d => ⟨"Invalid size value: 1e999k".data, rfl⟩, ?_, ?_, ?_⟩
  · intro s d n hnorm hfac hint
    have hne : s ≠ [] := by
      intro hc
      rw [hc] at hint
      exact Option.noConfusion hint
    rw [parseSize_nonempty s d hne, hnorm]
    cases hL : s.getLast? with
    | none => exact absurd (List.getLast?_eq_none_iff.mp hL) hne
    | some c => simp only [hL, hfac c hL, hint]
  · intro num c f d v fl hnorm hfac hPf hInt
    rw [parseSize_nonempty (num ++ [c]) d (by simp), hnorm]
    simp only [List.getLast?_concat, List.dropLast_concat, hfac, hPf, hInt]
  · intro s d
    by_cases hs : s = []
    · subst hs
      simp [parseSize]
    · rw [parseSize_nonempty s d hs]
      cases hL : (lowerStr (pyStrip s)).getLast? with
      | none =>
        have hnil : lowerStr (pyStrip s) = [] := List.getLast?_eq_none_iff.mp hL
        simp [hs, hnil, pyInt, parseSign, digRun, digRunAux]
      | some c =>
        cases hF : sizeFactorOf c with
        | some f =>
          cases hPf : pyFloat (lowerStr (pyStrip s)).dropLast with
          | some fl =>
            cases hInt : intOfFloat (floatMulNat fl f) with
            | some v => simp [hs, hL, hF, hPf, hInt]
            | none => simp [hs, hL, hF, hPf, hInt]
          | none => simp [hs, hL, hF, hPf]
        | none =>
          cases hPi : pyInt (lowerStr (pyStrip s)) with
          | some n => simp [hs, hL, hF, hPi]
          | none => simp [hs, hL, hF, hPi]

/-- Witness for C3 (amended) at concrete inputs: the bare-integer branch
at `42` and the suffixed-number branch at `2k` (where `float("2")` is
`2 ^ 52 * 2 ^ -51` and the product converts to 2048). -/
theorem claim3_amended_witness :
    parseSize "42".data 0 = Except.ok 42 ∧ parseSize "2k".data 0 = Except.ok 2048 := by
  have h5 := claim3_amended.2.2.2.2.2.2.2.1 "42".data 0 42 (by decide)
    (fun c hc => by
      rw [show ("42".data.getLast?) = some '2' from rfl] at hc
      injection hc with h
      subst h
      decide)
    (by decide)
  have h6 := claim3_amended.2.2.2.2.2.2.2.2.1 "2".data 'k' 1024 0 2048
    (PyFloat.finite 4503599627370496 (-51))
    (by decide) (by decide) (by decide) (by decide)
  exact ⟨h5, h6⟩

end ContextStitch
